import Mathlib

/-!
# A verified model of gooey's terminal UI components

Shallow embedding of the state-bearing parts of the `gooey` repository:

* `progress/progress.go` — the `Progress` bar state (current/total/message and
  the completed/failed latches).
* `spinner/spinner.go` — the `Spinner` lifecycle state machine.
* `internal/writer/indent.go` — the `IndentedWriter` line transformation.
* `spinner/spingroup.go` — the `SpinGroup` sequential task engine with
  dynamic subtask insertion.

Rendering side effects are modelled as event/write traces; wall-clock time,
goroutines and channels are outside the model (noted where relevant).
-/

namespace Gooey

/-! ## Progress (src/progress/progress.go)

Fields of the Go struct that only affect rendering (color, width, renderer,
frameAware, startTime, lastRenderedPercentage) are omitted: no property below
depends on them.  Go `int` is modelled as `Int`; `Percentage` (Go `float64`)
is modelled over `ℚ` — every division appearing in the verified properties is
exact, so no floating-point rounding is being glossed over. -/

structure Progress where
  title : String
  total : Int
  current : Int
  message : String
  completed : Bool
  failed : Bool
deriving Repr, DecidableEq

namespace Progress

/-- `progress.New(title, total, ...)` with the default options
(src/progress/progress.go lines 58-78): current 0, empty message,
not completed, not failed. -/
def new (title : String) (total : Int) : Progress :=
  { title := title
    total := total
    current := 0
    message := ""
    completed := false
    failed := false }

/-- `Progress.Update` (lines 86-94): no-op once completed, otherwise sets
`current` and `message` unconditionally (then re-renders). -/
def update (p : Progress) (current : Int) (message : String) : Progress :=
  if p.completed then p
  else { p with current := current, message := message }

/-- `Progress.Increment` (lines 102-110): no-op once completed, otherwise
bumps `current` by one and sets `message`. -/
def increment (p : Progress) (message : String) : Progress :=
  if p.completed then p
  else { p with current := p.current + 1, message := message }

/-- `Progress.Complete` (lines 118-139): no-op once completed; otherwise sets
`current := total`, keeps the old message when the new one is empty, and
latches `completed`. -/
def complete (p : Progress) (message : String) : Progress :=
  if p.completed then p
  else
    let p1 := { p with current := p.total }
    let p2 := if message ≠ "" then { p1 with message := message } else p1
    { p2 with completed := true }

/-- `Progress.Fail` (lines 164-185): no-op once completed or failed;
otherwise keeps the old message when the new one is empty, latches `failed`
and also latches `completed` ("prevent further updates"). `current` is left
untouched. -/
def fail (p : Progress) (message : String) : Progress :=
  if p.completed || p.failed then p
  else
    let p1 := if message ≠ "" then { p with message := message } else p
    { p1 with failed := true, completed := true }

/-- `Progress.Percentage` (lines 283-288): guarded division. -/
def percentage (p : Progress) : ℚ :=
  if p.total = 0 then 0
  else (p.current : ℚ) / (p.total : ℚ) * 100

/-- Modelled from the spec: `SetTotal(n)` is named by the spec ("supports
discovering total size after creation") and called by the repository's
examples, but its definition is not among the provided source files of
`progress/`.  Following the spec's words, it replaces the stored total with
`n`. -/
def setTotal (p : Progress) (n : Int) : Progress :=
  { p with total := n }

end Progress

/-! ## Claims about Progress -/

/-- Claim C4: `Progress` provides a `SetTotal(n)` operation that changes the
total after creation; for a `Progress` created with total 0, after
`SetTotal(50)` and then `Update(25, "")`, `Percentage()` returns 50. -/
theorem setTotal_changes_total_and_percentage :
    ((Progress.new "t" 0).setTotal 50).total = 50 ∧
    (((Progress.new "t" 0).setTotal 50).update 25 "").percentage = 50 := by
  constructor
  · rfl
  · norm_num [Progress.new, Progress.setTotal, Progress.update, Progress.percentage]

/-- Claim C6: for every `Progress` whose total is 0, `Percentage()` returns 0
(the division is guarded), and for a nonzero total it returns
`current / total * 100`. -/
theorem percentage_guards_division (p : Progress) :
    (p.total = 0 → p.percentage = 0) ∧
    (p.total ≠ 0 → p.percentage = (p.current : ℚ) / (p.total : ℚ) * 100) := by
  constructor
  · intro h
    simp [Progress.percentage, h]
  · intro h
    simp [Progress.percentage, h]

/-- Witness for C6: both branches of `percentage_guards_division`
instantiated at concrete progress bars. -/
theorem percentage_guards_division_witness :
    (Progress.new "a" 0).percentage = 0 ∧
    ((Progress.new "b" 4).update 1 "").percentage =
      (((Progress.new "b" 4).update 1 "").current : ℚ) /
        (((Progress.new "b" 4).update 1 "").total : ℚ) * 100 := by
  refine ⟨(percentage_guards_division (Progress.new "a" 0)).1 rfl, ?_⟩
  exact (percentage_guards_division ((Progress.new "b" 4).update 1 "")).2 (by decide)

/-- Claim C10: for a non-completed (hence, in every reachable state, also
non-failed: `fail` always latches `completed`) `Progress`, `Complete` sets
`current` to `total` (so `Current() = Total()`, and `Percentage() = 100` when
the total is positive), `Fail` leaves `current` unchanged, both latch
`completed` so that later `Update`/`Increment` calls change nothing, and both
preserve the previous message when called with an empty message. -/
theorem complete_fail_latch (p : Progress) (m : String)
    (hc : p.completed = false) (hf : p.failed = false) :
    (p.complete m).current = (p.complete m).total ∧
    (0 < p.total → (p.complete m).percentage = 100) ∧
    (p.fail m).current = p.current ∧
    (p.complete m).completed = true ∧
    (p.fail m).completed = true ∧
    (∀ c s, (p.complete m).update c s = p.complete m) ∧
    (∀ s, (p.complete m).increment s = p.complete m) ∧
    (∀ c s, (p.fail m).update c s = p.fail m) ∧
    (∀ s, (p.fail m).increment s = p.fail m) ∧
    (p.complete "").message = p.message ∧
    (p.fail "").message = p.message := by
  have hcm : (p.complete m).completed = true := by
    by_cases hm : m = "" <;> simp [Progress.complete, hc, hm]
  have hfm : (p.fail m).completed = true := by
    by_cases hm : m = "" <;> simp [Progress.fail, hc, hf, hm]
  refine ⟨?_, ?_, ?_, hcm, hfm, ?_, ?_, ?_, ?_, ?_, ?_⟩
  · by_cases hm : m = "" <;> simp [Progress.complete, hc, hm]
  · intro hpos
    have htot : p.total ≠ 0 := by omega
    have hcur : (p.complete m).current = p.total := by
      by_cases hm : m = "" <;> simp [Progress.complete, hc, hm]
    have htoteq : (p.complete m).total = p.total := by
      by_cases hm : m = "" <;> simp [Progress.complete, hc, hm]
    have : ((p.total : ℚ)) ≠ 0 := by exact_mod_cast htot
    simp [Progress.percentage, hcur, htoteq, htot]
  · by_cases hm : m = "" <;> simp [Progress.fail, hc, hf, hm]
  · intro c s
    simp [Progress.update, hcm]
  · intro s
    simp [Progress.increment, hcm]
  · intro c s
    simp [Progress.update, hfm]
  · intro s
    simp [Progress.increment, hfm]
  · simp [Progress.complete, hc]
  · simp [Progress.fail, hc, hf]

/-- Witness for C10: `complete_fail_latch` applied to a concrete in-flight
progress bar. -/
theorem complete_fail_latch_witness :
    (((Progress.new "t" 10).update 3 "x").complete "done").current =
      (((Progress.new "t" 10).update 3 "x").complete "done").total := by
  exact (complete_fail_latch ((Progress.new "t" 10).update 3 "x") "done"
    (by decide) (by decide)).1

/-! ## Spinner (src/spinner/spinner.go)

The spinner's rendering target is modelled as an append-only trace of write
events (`out`).  Wall-clock data (start time, elapsed text, the animation
ticker) and the stop channel are outside this sequential model: the
background animation loop's writes are not modelled, which is conservative
here because every verified property below is about spinners that are either
untouched or on the guarded (non-rendering) path.  Color fields are omitted:
no property below depends on them. -/

/-- `SpinnerState`: `SpinnerCompleted` / `SpinnerFailed`
(src/spinner/spinner.go lines 20-23). -/
inductive SpinnerState where
  | spinnerCompleted
  | spinnerFailed
deriving Repr, DecidableEq

/-- One write made by a spinner to its output: the final (complete/fail)
frame rendered by `renderFinal` (its icon is determined by the state and it
carries the current message; the elapsed-time suffix is wall-clock data and
not modelled), or the trailing blank line printed outside frames. -/
inductive SpinnerWrite where
  | finalFrame (state : SpinnerState) (message : String)
  | blankLine
deriving Repr, DecidableEq

structure Spinner where
  message : String
  showElapsed : Bool
  suppressRender : Bool
  inFrame : Bool
  running : Bool
  state : SpinnerState
  out : List SpinnerWrite
deriving Repr, DecidableEq

namespace Spinner

/-- `spinner.New(message, ...)` with default options (src/spinner/spinner.go
lines 95-114): not running, state defaults to `SpinnerCompleted`, output is
stdout (not a frame). -/
def new (message : String) : Spinner :=
  { message := message
    showElapsed := true
    suppressRender := false
    inFrame := false
    running := false
    state := .spinnerCompleted
    out := [] }

/-- `Spinner.UpdateMessage` (lines 184-188). -/
def updateMessage (s : Spinner) (message : String) : Spinner :=
  { s with message := message }

/-- `Spinner.renderFinal` (lines 246-269): writes nothing when rendering is
suppressed, otherwise emits the final frame for the current state and
message. -/
def renderFinal (s : Spinner) : Spinner :=
  if s.suppressRender then s
  else { s with out := s.out ++ [.finalFrame s.state s.message] }

/-- `Spinner.Start` (lines 117-129): no-op when already running, otherwise
flips to running (and launches the animation goroutine, whose periodic
writes are outside this model). -/
def start (s : Spinner) : Spinner :=
  if s.running then s
  else { s with running := true }

/-- `Spinner.Stop` (lines 132-149): no-op when not running; otherwise flips
to not running with state `SpinnerCompleted`, renders the final frame and,
when not inside a frame, a trailing blank line.  (The rendezvous on
`stopChan` is a blocking point only; it performs no state change or
write.) -/
def stop (s : Spinner) : Spinner :=
  if !s.running then s
  else
    let s1 := { s with running := false, state := .spinnerCompleted }
    let s2 := s1.renderFinal
    if !s2.inFrame then { s2 with out := s2.out ++ [.blankLine] } else s2

/-- `Spinner.Fail` (lines 161-181): first updates the message when it is
non-empty (this happens *before* the running guard), then behaves like
`stop` but with state `SpinnerFailed`. -/
def fail (s : Spinner) (message : String) : Spinner :=
  let s0 := if message ≠ "" then s.updateMessage message else s
  if !s0.running then s0
  else
    let s1 := { s0 with running := false, state := .spinnerFailed }
    let s2 := s1.renderFinal
    if !s2.inFrame then { s2 with out := s2.out ++ [.blankLine] } else s2

/-- `Spinner.Complete` (lines 199-204): optional message update, then
`Stop`. -/
def complete (s : Spinner) (message : String) : Spinner :=
  (if message ≠ "" then s.updateMessage message else s).stop

end Spinner

/-! ## Claims about Spinner -/

/-- Claim C5 counterexample: the claim says `Fail(message)` on a non-running
spinner leaves all observable state unchanged, but `Fail` updates the
message *before* checking the running guard (src/spinner/spinner.go lines
161-164): on the freshly created (not running) spinner with message
"hello", `Fail("oops")` changes `Message()` to "oops". -/
theorem fail_not_running_changes_message :
    (Spinner.new "hello").running = false ∧
    ((Spinner.new "hello").fail "oops").message = "oops" ∧
    ¬ ((Spinner.new "hello").fail "oops").message = (Spinner.new "hello").message := by
  refine ⟨rfl, rfl, ?_⟩
  decide

/-- Claim C5 (amended): for every spinner that is not running, `Stop()` is a
complete no-op; `Fail(message)` makes no write and leaves `State()` and
`IsRunning()` unchanged, and leaves `Message()` unchanged when `message` is
empty, but sets `Message()` to `message` when it is non-empty (the message
update precedes the running guard); and `Start()` on a running spinner is a
no-op. -/
theorem stop_fail_not_running_guards (s : Spinner) (m : String)
    (h : s.running = false) :
    s.stop = s ∧
    (s.fail m).out = s.out ∧
    (s.fail m).state = s.state ∧
    (s.fail m).running = false ∧
    (s.fail "").message = s.message ∧
    (m ≠ "" → (s.fail m).message = m) ∧
    (∀ t : Spinner, t.running = true → t.start = t) := by
  refine ⟨?_, ?_, ?_, ?_, ?_, ?_, ?_⟩
  · simp [Spinner.stop, h]
  · by_cases hm : m = "" <;> simp [Spinner.fail, Spinner.updateMessage, h, hm]
  · by_cases hm : m = "" <;> simp [Spinner.fail, Spinner.updateMessage, h, hm]
  · by_cases hm : m = "" <;> simp [Spinner.fail, Spinner.updateMessage, h, hm]
  · simp [Spinner.fail, h]
  · intro hm
    simp [Spinner.fail, Spinner.updateMessage, h, hm]
  · intro t ht
    simp [Spinner.start, ht]

/-- Witness for the amended C5: the guards applied to a concrete
never-started spinner. -/
theorem stop_fail_not_running_guards_witness :
    (Spinner.new "w").stop = Spinner.new "w" ∧
    ((Spinner.new "w").fail "e").out = (Spinner.new "w").out := by
  have h := stop_fail_not_running_guards (Spinner.new "w") "e" rfl
  exact ⟨h.1, h.2.1⟩

/-- Claim C9: a freshly created spinner reports `State() = SpinnerCompleted`
(the constructor's default) and `IsRunning() = false` before any `Start()`;
a spinner that was started and then stopped successfully reports the same
state, so `State()` cannot distinguish the two. -/
theorem new_state_completed (m : String) :
    (Spinner.new m).state = SpinnerState.spinnerCompleted ∧
    (Spinner.new m).running = false ∧
    ((Spinner.new m).start.stop).state = (Spinner.new m).state ∧
    ((Spinner.new m).start.stop).running = (Spinner.new m).running := by
  refine ⟨rfl, rfl, ?_, ?_⟩ <;>
    simp [Spinner.new, Spinner.start, Spinner.stop, Spinner.renderFinal]

/-! ## IndentedWriter (src/internal/writer/indent.go)

`IndentedWriter.Write` is a pure transformation on the written content; we
model content as `List Char` (Go strings under `strings.Split`,
`strings.TrimSpace`, `strings.HasPrefix`, `strings.Contains`) with explicit
structural helpers mirroring those library functions. -/

/-- `strings.HasPrefix` on character lists. -/
def hasPrefixSeq : List Char → List Char → Bool
  | [], _ => true
  | _ :: _, [] => false
  | p :: ps, c :: cs => p = c && hasPrefixSeq ps cs

/-- `strings.Contains` on character lists. -/
def containsSeq (pat : List Char) : List Char → Bool
  | [] => pat.isEmpty
  | c :: cs => hasPrefixSeq pat (c :: cs) || containsSeq pat cs

/-- `strings.Split(s, "\n")`: always at least one piece; pieces carry no
newline. -/
def splitLines : List Char → List (List Char)
  | [] => [[]]
  | c :: rest =>
    if c = '\n' then [] :: splitLines rest
    else
      match splitLines rest with
      | [] => [[c]]
      | l :: ls => (c :: l) :: ls

/-- `strings.Join(lines, "\n")`. -/
def joinLines : List (List Char) → List Char
  | [] => []
  | [l] => l
  | l :: ls => l ++ '\n' :: joinLines ls

/-- `ansi.ClearLine` = `"\x1b[K"` (src/ansi). -/
def clearLineSeq : List Char := ['\x1b', '[', 'K']

/-- `unicode.IsSpace`, the character class `strings.TrimSpace` trims:
Unicode's White_Space property — `'\t'`/`'\n'`/`'\v'`/`'\f'`/`'\r'`
(0x09-0x0D), space, NEL (0x85), NBSP (0xA0), Ogham space mark (0x1680),
the en-quad..hair-space range (0x2000-0x200A), line and paragraph
separators (0x2028, 0x2029), narrow no-break space (0x202F), medium
mathematical space (0x205F) and ideographic space (0x3000). -/
def goIsSpace (c : Char) : Bool :=
  let n := c.toNat
  (0x09 ≤ n && n ≤ 0x0D) || n = 0x20 || n = 0x85 || n = 0xA0 ||
  n = 0x1680 || (0x2000 ≤ n && n ≤ 0x200A) ||
  n = 0x2028 || n = 0x2029 || n = 0x202F || n = 0x205F || n = 0x3000

/-- The pass-through guard of `IndentedWriter.Write` (indent.go lines
318-321): content starting with `"\r"`, containing `ansi.ClearLine`, equal
to a standalone `"\n"`, or trimming to the empty string is forwarded without
indentation.  (`strings.TrimSpace(content) == ""` holds exactly when every
character satisfies `unicode.IsSpace`, modelled by `goIsSpace`.) -/
def indentPassThrough (content : List Char) : Bool :=
  hasPrefixSeq ['\r'] content ||
  containsSeq clearLineSeq content ||
  content == ['\n'] ||
  content.all goIsSpace

/-- The per-line step of `IndentedWriter.Write` (lines 331-338): non-empty
lines get the indent prepended, empty lines stay empty. -/
def indentLine (indent : List Char) (line : List Char) : List Char :=
  if line = [] then line else indent ++ line

/-- The indent string built by `NewIndentedWriter`:
`strings.Repeat("  ", depth)`. -/
def mkIndent (depth : Nat) : List Char :=
  (List.replicate depth [' ', ' ']).flatten

/-- The content transformation performed by one `IndentedWriter.Write` call
(lines 310-350). -/
def indentedWrite (indent : List Char) (content : List Char) : List Char :=
  if indentPassThrough content then content
  else joinLines ((splitLines content).map (indentLine indent))

/-- `NewIndentedWriter(w, depth)` (lines 292-300) returns the original
writer unchanged for `depth ≤ 0` (the Go depth is an `int`), so the
write-transformation it induces is the identity there. -/
def newIndentedWrite (depth : Int) (content : List Char) : List Char :=
  if depth ≤ 0 then content
  else indentedWrite (mkIndent depth.toNat) content

/-! Helper lemmas about the line splitting/joining pair. -/

theorem splitLines_ne_nil (cs : List Char) : splitLines cs ≠ [] := by
  induction cs with
  | nil => simp [splitLines]
  | cons c rest ih =>
    by_cases h : c = '\n'
    · simp [splitLines, h]
    · simp only [splitLines, if_neg h]
      cases hs : splitLines rest with
      | nil => simp
      | cons l ls => simp

theorem newline_not_mem_splitLines (cs : List Char) :
    ∀ l ∈ splitLines cs, '\n' ∉ l := by
  induction cs with
  | nil =>
    intro l hl
    simp only [splitLines, List.mem_singleton] at hl
    simp [hl]
  | cons c rest ih =>
    intro l hl
    by_cases h : c = '\n'
    · rw [splitLines, if_pos h] at hl
      rcases List.mem_cons.mp hl with hl | hl
      · simp [hl]
      · exact ih l hl
    · rw [splitLines, if_neg h] at hl
      cases hs : splitLines rest with
      | nil => exact absurd hs (splitLines_ne_nil rest)
      | cons m ms =>
        rw [hs] at hl
        rcases List.mem_cons.mp hl with hl | hl
        · subst hl
          intro hmem
          rcases List.mem_cons.mp hmem with hc | hc
          · exact h hc.symm
          · exact ih m (by rw [hs]; exact List.mem_cons_self m ms) hc
        · exact ih l (by rw [hs]; exact List.mem_cons_of_mem m hl)

theorem splitLines_append_no_newline (l cs : List Char) (hl : '\n' ∉ l) :
    splitLines (l ++ cs) =
      (l ++ (splitLines cs).headI) :: (splitLines cs).tail := by
  induction l with
  | nil =>
    cases hs : splitLines cs with
    | nil => exact absurd hs (splitLines_ne_nil cs)
    | cons m ms => simp [hs]
  | cons c rest ih =>
    have hc : c ≠ '\n' := fun hc => hl (by simp [hc])
    have hrest : '\n' ∉ rest := fun hr => hl (by simp [hr])
    have hstep : splitLines (c :: (rest ++ cs)) =
        match splitLines (rest ++ cs) with
        | [] => [[c]]
        | l :: ls => (c :: l) :: ls := by
      rw [splitLines, if_neg hc]
    rw [List.cons_append, hstep, ih hrest]
    simp

theorem splitLines_joinLines (ls : List (List Char)) (hne : ls ≠ [])
    (hnl : ∀ l ∈ ls, '\n' ∉ l) : splitLines (joinLines ls) = ls := by
  induction ls with
  | nil => exact absurd rfl hne
  | cons l rest ih =>
    cases rest with
    | nil =>
      have hl : '\n' ∉ l := hnl l (by simp)
      have h0 := splitLines_append_no_newline l [] hl
      simp only [List.append_nil, splitLines, List.headI, List.tail] at h0
      simp only [joinLines]
      exact h0
    | cons m ms =>
      have hl : '\n' ∉ l := hnl l (by simp)
      have hrest : splitLines (joinLines (m :: ms)) = m :: ms :=
        ih (by simp) (fun x hx => hnl x (by simp [hx]))
      have hstep : joinLines (l :: m :: ms) = l ++ '\n' :: joinLines (m :: ms) := rfl
      rw [hstep, splitLines_append_no_newline l ('\n' :: joinLines (m :: ms)) hl]
      have hsplit : splitLines ('\n' :: joinLines (m :: ms)) =
          [] :: splitLines (joinLines (m :: ms)) := by
        simp [splitLines]
      rw [hsplit, hrest]
      simp

theorem mkIndent_no_newline (d : Nat) : '\n' ∉ mkIndent d := by
  intro h
  rcases List.mem_flatten.mp h with ⟨l, hl, hmem⟩
  rcases List.eq_of_mem_replicate hl with rfl
  simp at hmem

theorem mkIndent_length (d : Nat) : (mkIndent d).length = 2 * d := by
  induction d with
  | zero => rfl
  | succ n ih =>
    simp only [mkIndent, List.replicate_succ, List.flatten_cons, List.length_append,
      List.length_cons, List.length_nil]
    simp only [mkIndent] at ih
    omega

theorem mkIndent_succ (d : Nat) : mkIndent (d + 1) = [' ', ' '] ++ mkIndent d := by
  simp [mkIndent, List.replicate_succ]

/-! ## Claims about IndentedWriter -/

/-- Claim C8 counterexample: the claim says every non-empty line written
through a depth-1 `IndentedWriter` is prefixed with one indentation unit,
but `IndentedWriter.Write` passes content containing `ansi.ClearLine`
through untouched (indent.go lines 318-328): the single non-empty line
`"hi\x1b[K"` comes out without the two-space prefix. -/
theorem indent_clearline_passthrough :
    newIndentedWrite 1 ['h', 'i', '\x1b', '[', 'K'] = ['h', 'i', '\x1b', '[', 'K'] ∧
    splitLines ['h', 'i', '\x1b', '[', 'K'] = [['h', 'i', '\x1b', '[', 'K']] ∧
    ['h', 'i', '\x1b', '[', 'K'] ≠ [] ∧
    hasPrefixSeq (mkIndent 1) (newIndentedWrite 1 ['h', 'i', '\x1b', '[', 'K']) = false := by
  refine ⟨?_, ?_, ?_, ?_⟩ <;> decide

/-- Claim C8 (amended): during `SpinGroup.Run` a task's component output is
wrapped by `NewIndentedWriter` at the task's depth `d` (2 spaces per unit,
and a subtask sits at its parent's depth plus one, see the subtask-insertion
theorem); for every write whose content is not pass-through content (does
not start with `"\r"`, does not contain the clear-line sequence, is not a
standalone newline and does not consist entirely of Unicode white space in
the sense of `unicode.IsSpace`), every non-empty line is
prefixed with `d` indentation units and empty lines are preserved. -/
theorem indented_write_lines (d : Nat) (hd : 0 < d) (content : List Char)
    (hguard : indentPassThrough content = false) :
    splitLines (newIndentedWrite (d : Int) content) =
      (splitLines content).map
        (fun l => if l = [] then l else mkIndent d ++ l) ∧
    (mkIndent d).length = 2 * d ∧
    mkIndent (d + 1) = [' ', ' '] ++ mkIndent d := by
  refine ⟨?_, mkIndent_length d, mkIndent_succ d⟩
  have hdpos : ¬ ((d : Int) ≤ 0) := by exact_mod_cast Nat.not_le.mpr hd
  have htn : (d : Int).toNat = d := Int.toNat_natCast d
  rw [newIndentedWrite, if_neg hdpos, indentedWrite, if_neg (by simp [hguard]), htn]
  have hmap_ne : (splitLines content).map (indentLine (mkIndent d)) ≠ [] := by
    simp [splitLines_ne_nil content]
  have hmap_nl : ∀ l ∈ (splitLines content).map (indentLine (mkIndent d)), '\n' ∉ l := by
    intro l hl
    rcases List.mem_map.mp hl with ⟨m, hm, rfl⟩
    have hmnl := newline_not_mem_splitLines content m hm
    unfold indentLine
    by_cases hme : m = []
    · rw [if_pos hme]
      exact hmnl
    · rw [if_neg hme]
      intro hmem
      rcases List.mem_append.mp hmem with h | h
      · exact mkIndent_no_newline d h
      · exact hmnl h
  rw [splitLines_joinLines _ hmap_ne hmap_nl]
  rfl

/-- Witness for the amended C8: a two-line depth-2 write, each non-empty
line picking up four spaces. -/
theorem indented_write_lines_witness :
    splitLines (newIndentedWrite (2 : Int) ['a', '\n', 'b']) =
      (splitLines ['a', '\n', 'b']).map
        (fun l => if l = [] then l else mkIndent 2 ++ l) := by
  exact (indented_write_lines 2 (by decide) ['a', '\n', 'b'] (by decide)).1

/-! ## SpinGroup (src/spinner/spingroup.go)

The engine is embedded with components identified by `Nat` tags and task
functions `func(TaskComponent, *SpinGroup) error` represented by their
observable behavior: the sequence of `AddSubtask` calls a function makes
(in call order, as made by a sequential task function) followed by the
error value it returns.  Component lifecycle calls (`SetOutput`, `Start`,
`Complete`, `Fail`) are recorded as events attributed to the owning task's
component tag. -/

/-- Behavior of one task function: its `AddSubtask` calls (name, component
tag, and the subtask's own behavior, in call order) and its returned
error (`none` = nil). -/
inductive TaskBehavior where
  | mk (subtasks : List (String × Nat × TaskBehavior)) (result : Option String)

def TaskBehavior.subtasks : TaskBehavior → List (String × Nat × TaskBehavior)
  | .mk s _ => s

def TaskBehavior.result : TaskBehavior → Option String
  | .mk _ r => r

/-- `SpinGroupTask` (src/spinner/spingroup.go lines 30-35).  `component` and
`taskFunc` are nillable in Go, hence `Option`; `depth` is a Go `int`. -/
structure SpinGroupTask where
  name : String
  component : Option Nat
  taskFunc : Option TaskBehavior
  depth : Int

/-- `SpinGroup` (lines 18-27).  `currentIndex` and `subtaskOffset` are Go
`int`s that only ever hold loop indices and counts, hence `Nat`; the
output writer and mutex carry no modelled state. -/
structure SpinGroup where
  title : String
  tasks : List SpinGroupTask
  currentIndex : Nat
  subtaskOffset : Nat
  running : Bool

namespace SpinGroup

/-- `NewSpinGroup(title)` (lines 84-96) with default options. -/
def new (title : String) : SpinGroup :=
  { title := title, tasks := [], currentIndex := 0, subtaskOffset := 0, running := false }

/-- `SpinGroup.AddTask` (lines 152-162): appends a depth-0 task. -/
def addTask (sg : SpinGroup) (name : String) (component : Nat)
    (taskFunc : TaskBehavior) : SpinGroup :=
  { sg with
    tasks := sg.tasks ++
      [{ name := name, component := some component, taskFunc := some taskFunc, depth := 0 }] }

/-- `SpinGroup.AddSubtask` (lines 187-217): splices a new task at
`currentIndex + 1 + subtaskOffset` with depth `tasks[currentIndex].depth + 1`
(0-based depth falls back to 0 if `currentIndex` is out of bounds), then
increments `subtaskOffset`. -/
def addSubtask (sg : SpinGroup) (name : String) (component : Nat)
    (taskFunc : TaskBehavior) : SpinGroup :=
  let insertIndex := sg.currentIndex + 1 + sg.subtaskOffset
  let currentTaskDepth : Int :=
    if h : sg.currentIndex < sg.tasks.length then (sg.tasks.get ⟨sg.currentIndex, h⟩).depth
    else 0
  let newTask : SpinGroupTask :=
    { name := name, component := some component, taskFunc := some taskFunc,
      depth := currentTaskDepth + 1 }
  let tasks' :=
    if sg.tasks.length ≤ insertIndex then sg.tasks ++ [newTask]
    else sg.tasks.take insertIndex ++ newTask :: sg.tasks.drop insertIndex
  { sg with tasks := tasks', subtaskOffset := sg.subtaskOffset + 1 }

/-- `SpinGroup.validate`, per-task part (lines 320-333). -/
def validateTask (t : SpinGroupTask) : Option String :=
  if t.name = "" then some "task name cannot be empty"
  else if t.component.isNone then some "task component cannot be nil"
  else if t.taskFunc.isNone then some "task function cannot be nil"
  else if t.depth < 0 then some "task depth cannot be negative"
  else none

/-- The task loop of `SpinGroup.validate`: first failing task wins. -/
def validateTasks : List SpinGroupTask → Option String
  | [] => none
  | t :: ts =>
    match validateTask t with
    | some e => some e
    | none => validateTasks ts

/-- `SpinGroup.validate` (lines 307-336). -/
def validate (sg : SpinGroup) : Option String :=
  if sg.title = "" then some "spingroup title cannot be empty"
  else if sg.tasks.length = 0 then some "spingroup must have at least one task"
  else validateTasks sg.tasks

end SpinGroup

/-- A component lifecycle event observed during `Run` (attributed to the
owning task's component tag): `SetOutput` of an indented writer at the
task's depth, `Start`, the task function invocation, `Complete("")`, or
`Fail(err.Error())`. -/
inductive GEv where
  | setOutput (component : Nat) (depth : Int)
  | started (component : Nat)
  | invoked (component : Nat)
  | completedTask (component : Nat)
  | failedTask (component : Nat) (msg : String)
deriving Repr, DecidableEq

/-- The behavior a task executes: its `taskFunc`, defaulting to the inert
behavior for a nil function (`Run` only executes after `validate` has ruled
nil out; Go would dereference nil there). -/
def SpinGroupTask.behavior (t : SpinGroupTask) : TaskBehavior :=
  t.taskFunc.getD (.mk [] none)

/-- The component tag a task drives, defaulting to 0 for a nil component
(same remark as for `SpinGroupTask.behavior`). -/
def SpinGroupTask.comp (t : SpinGroupTask) : Nat :=
  t.component.getD 0

/-- A task function's `AddSubtask` calls, made in order against the group
(spingroup.go line 277 passes `sg` to the task function for exactly this). -/
def runSubtaskCalls (sg : SpinGroup) : List (String × Nat × TaskBehavior) → SpinGroup
  | [] => sg
  | (n, c, b) :: rest => runSubtaskCalls (sg.addSubtask n c b) rest

/-- The task record `AddSubtask` builds for a call `(name, component,
behavior)` at depth `d`. -/
def subtaskEntry (d : Int) (s : String × Nat × TaskBehavior) : SpinGroupTask :=
  { name := s.1, component := some s.2.1, taskFunc := some s.2.2, depth := d }

/-- The depth stored at a list position, with `AddSubtask`'s out-of-bounds
fallback of 0 (spingroup.go lines 195-198). -/
def depthAt (ts : List SpinGroupTask) (i : Nat) : Int :=
  ((ts[i]?).map SpinGroupTask.depth).getD 0

theorem depthAt_of_lt (ts : List SpinGroupTask) (i : Nat) (h : i < ts.length) :
    depthAt ts i = ts[i].depth := by
  unfold depthAt
  rw [List.getElem?_eq_getElem h]
  rfl

/-- `AddSubtask`'s two insertion branches coincide with one splice at
`currentIndex + 1 + subtaskOffset`. -/
theorem addSubtask_tasks (sg : SpinGroup) (n : String) (c : Nat) (b : TaskBehavior) :
    (sg.addSubtask n c b).tasks =
      sg.tasks.take (sg.currentIndex + 1 + sg.subtaskOffset) ++
        subtaskEntry (depthAt sg.tasks sg.currentIndex + 1) (n, c, b) ::
          sg.tasks.drop (sg.currentIndex + 1 + sg.subtaskOffset) := by
  have hdepth :
      (if h : sg.currentIndex < sg.tasks.length then
        (sg.tasks.get ⟨sg.currentIndex, h⟩).depth else 0) =
        depthAt sg.tasks sg.currentIndex := by
    by_cases h : sg.currentIndex < sg.tasks.length
    · rw [dif_pos h, depthAt_of_lt sg.tasks sg.currentIndex h]
      rfl
    · rw [dif_neg h]
      unfold depthAt
      rw [List.getElem?_eq_none (Nat.le_of_not_lt h)]
      rfl
  simp only [SpinGroup.addSubtask, hdepth, subtaskEntry]
  by_cases hk : sg.tasks.length ≤ sg.currentIndex + 1 + sg.subtaskOffset
  · rw [if_pos hk, List.take_of_length_le hk, List.drop_eq_nil_of_le hk]
  · rw [if_neg hk]

theorem addSubtask_currentIndex (sg : SpinGroup) (n : String) (c : Nat) (b : TaskBehavior) :
    (sg.addSubtask n c b).currentIndex = sg.currentIndex := rfl

theorem addSubtask_subtaskOffset (sg : SpinGroup) (n : String) (c : Nat) (b : TaskBehavior) :
    (sg.addSubtask n c b).subtaskOffset = sg.subtaskOffset + 1 := rfl

/-- `runSubtaskCalls` splices the called-for subtasks, in call order, right
behind the cursor position plus the subtasks inserted so far, each one level
deeper than the task under the cursor, and advances `subtaskOffset` by one
per call.  Generalized to an arbitrary starting `subtaskOffset` for the
induction. -/
theorem runSubtaskCalls_spec (subs : List (String × Nat × TaskBehavior))
    (sg : SpinGroup) (h : sg.currentIndex < sg.tasks.length)
    (hoff : sg.currentIndex + 1 + sg.subtaskOffset ≤ sg.tasks.length) :
    (runSubtaskCalls sg subs).tasks =
      sg.tasks.take (sg.currentIndex + 1 + sg.subtaskOffset) ++
        subs.map (subtaskEntry (depthAt sg.tasks sg.currentIndex + 1)) ++
        sg.tasks.drop (sg.currentIndex + 1 + sg.subtaskOffset) ∧
    (runSubtaskCalls sg subs).currentIndex = sg.currentIndex ∧
    (runSubtaskCalls sg subs).subtaskOffset = sg.subtaskOffset + subs.length ∧
    (runSubtaskCalls sg subs).title = sg.title ∧
    (runSubtaskCalls sg subs).running = sg.running := by
  induction subs generalizing sg with
  | nil =>
    refine ⟨?_, rfl, rfl, rfl, rfl⟩
    simp [runSubtaskCalls, List.take_append_drop]
  | cons s rest ih =>
    obtain ⟨n, c, b⟩ := s
    have htasks' : (sg.addSubtask n c b).tasks =
        sg.tasks.take (sg.currentIndex + 1 + sg.subtaskOffset) ++
          subtaskEntry (depthAt sg.tasks sg.currentIndex + 1) (n, c, b) ::
            sg.tasks.drop (sg.currentIndex + 1 + sg.subtaskOffset) :=
      addSubtask_tasks sg n c b
    have hlen_take :
        (sg.tasks.take (sg.currentIndex + 1 + sg.subtaskOffset)).length =
          sg.currentIndex + 1 + sg.subtaskOffset := by
      rw [List.length_take]
      omega
    have hlen' : (sg.addSubtask n c b).tasks.length = sg.tasks.length + 1 := by
      rw [htasks']
      simp only [List.length_append, List.length_cons, List.length_drop, hlen_take]
      omega
    have h' : (sg.addSubtask n c b).currentIndex < (sg.addSubtask n c b).tasks.length := by
      rw [addSubtask_currentIndex, hlen']
      omega
    have hoff' : (sg.addSubtask n c b).currentIndex + 1 +
        (sg.addSubtask n c b).subtaskOffset ≤ (sg.addSubtask n c b).tasks.length := by
      rw [addSubtask_currentIndex, addSubtask_subtaskOffset, hlen']
      omega
    have hdepth' : depthAt (sg.addSubtask n c b).tasks sg.currentIndex =
        depthAt sg.tasks sg.currentIndex := by
      unfold depthAt
      rw [htasks', List.getElem?_append_left (by rw [hlen_take]; omega),
        List.getElem?_take_of_lt (by omega)]
    obtain ⟨ht, hc2, ho2, hti2, hr2⟩ := ih (sg.addSubtask n c b) h' hoff'
    have hstep : runSubtaskCalls sg ((n, c, b) :: rest) =
        runSubtaskCalls (sg.addSubtask n c b) rest := rfl
    rw [hstep, ht, hc2, ho2, hti2, hr2, addSubtask_currentIndex, addSubtask_subtaskOffset,
      hdepth']
    have htake : (sg.addSubtask n c b).tasks.take
        (sg.currentIndex + 1 + (sg.subtaskOffset + 1)) =
        sg.tasks.take (sg.currentIndex + 1 + sg.subtaskOffset) ++
          [subtaskEntry (depthAt sg.tasks sg.currentIndex + 1) (n, c, b)] := by
      rw [htasks']
      have harith : sg.currentIndex + 1 + (sg.subtaskOffset + 1) =
          (sg.tasks.take (sg.currentIndex + 1 + sg.subtaskOffset)).length + 1 := by
        rw [hlen_take]
        omega
      rw [harith, List.take_append 1]
      simp
    have hdrop : (sg.addSubtask n c b).tasks.drop
        (sg.currentIndex + 1 + (sg.subtaskOffset + 1)) =
        sg.tasks.drop (sg.currentIndex + 1 + sg.subtaskOffset) := by
      rw [htasks']
      have harith : sg.currentIndex + 1 + (sg.subtaskOffset + 1) =
          (sg.tasks.take (sg.currentIndex + 1 + sg.subtaskOffset)).length + 1 := by
        rw [hlen_take]
        omega
      rw [harith, List.drop_append 1]
      simp
    rw [htake, hdrop]
    refine ⟨?_, rfl, by simp [List.length_cons]; omega, rfl, rfl⟩
    simp [List.map_cons, List.append_assoc]

mutual

/-- Structural weight of a behavior tree (used as the `Run` loop's
termination measure). -/
def behWeight : TaskBehavior → Nat
  | .mk subs _ => 1 + subsWeight subs

/-- Structural weight of a list of subtask calls. -/
def subsWeight : List (String × Nat × TaskBehavior) → Nat
  | [] => 0
  | (_, _, b) :: rest => 1 + behWeight b + subsWeight rest

end

/-- Weight of an optional task function. -/
def optWeight : Option TaskBehavior → Nat
  | none => 1
  | some b => 1 + behWeight b

/-- Termination measure for the `Run` loop: total weight of the pending task
functions from a position on.  Executing one task consumes its behavior
tree's root and inserts only the (strictly smaller) child behaviors. -/
def groupWeight (ts : List SpinGroupTask) : Nat :=
  (ts.map fun t => optWeight t.taskFunc).sum

theorem groupWeight_subtaskEntries (d : Int)
    (subs : List (String × Nat × TaskBehavior)) :
    groupWeight (subs.map (subtaskEntry d)) = subsWeight subs := by
  induction subs with
  | nil => rfl
  | cons x rest ih =>
    obtain ⟨n, c, b⟩ := x
    simp only [groupWeight, List.map_cons, List.sum_cons] at ih ⊢
    rw [ih]
    rfl

theorem runSubtaskCalls_weight_lt (sg : SpinGroup) (i : Nat)
    (h : i < sg.tasks.length) :
    groupWeight ((runSubtaskCalls { sg with currentIndex := i, subtaskOffset := 0 }
        (sg.tasks[i].behavior.subtasks)).tasks.drop (i + 1)) <
      groupWeight (sg.tasks.drop i) := by
  have h1 : ({ sg with currentIndex := i, subtaskOffset := 0 } : SpinGroup).currentIndex <
      ({ sg with currentIndex := i, subtaskOffset := 0 } : SpinGroup).tasks.length := h
  have hoff1 : ({ sg with currentIndex := i, subtaskOffset := 0 } : SpinGroup).currentIndex + 1 +
      ({ sg with currentIndex := i, subtaskOffset := 0 } : SpinGroup).subtaskOffset ≤
      ({ sg with currentIndex := i, subtaskOffset := 0 } : SpinGroup).tasks.length := by
    show i + 1 + 0 ≤ sg.tasks.length
    omega
  obtain ⟨ht, -, -, -, -⟩ :=
    runSubtaskCalls_spec (sg.tasks[i].behavior.subtasks)
      { sg with currentIndex := i, subtaskOffset := 0 } h1 hoff1
  simp only at ht
  have hlen_take : (sg.tasks.take (i + 1 + 0)).length = i + 1 := by
    rw [List.length_take]
    omega
  have hdrop : (runSubtaskCalls { sg with currentIndex := i, subtaskOffset := 0 }
      (sg.tasks[i].behavior.subtasks)).tasks.drop (i + 1) =
      (sg.tasks[i].behavior.subtasks).map
        (subtaskEntry (depthAt sg.tasks i + 1)) ++ sg.tasks.drop (i + 1 + 0) := by
    rw [ht, List.append_assoc, List.drop_left' hlen_take]
  rw [hdrop]
  have hsplit : groupWeight ((sg.tasks[i].behavior.subtasks).map
      (subtaskEntry (depthAt sg.tasks i + 1)) ++ sg.tasks.drop (i + 1 + 0)) =
      groupWeight ((sg.tasks[i].behavior.subtasks).map
        (subtaskEntry (depthAt sg.tasks i + 1))) + groupWeight (sg.tasks.drop (i + 1)) := by
    simp only [groupWeight, List.map_append, List.sum_append]
  have hmid : sg.tasks.drop i = sg.tasks[i] :: sg.tasks.drop (i + 1) :=
    List.drop_eq_getElem_cons h
  have hcons : groupWeight (sg.tasks.drop i) =
      optWeight (sg.tasks[i].taskFunc) + groupWeight (sg.tasks.drop (i + 1)) := by
    rw [hmid]
    simp only [groupWeight, List.map_cons, List.sum_cons]
  rw [hsplit, hcons, groupWeight_subtaskEntries]
  have hlt : subsWeight (sg.tasks[i].behavior.subtasks) <
      optWeight (sg.tasks[i].taskFunc) := by
    cases htf : sg.tasks[i].taskFunc with
    | none =>
      have hb : sg.tasks[i].behavior = TaskBehavior.mk [] none := by
        simp [SpinGroupTask.behavior, htf]
      rw [hb]
      show subsWeight [] < optWeight none
      simp [subsWeight, optWeight]
    | some b =>
      obtain ⟨subs, r⟩ := b
      have hb : sg.tasks[i].behavior = TaskBehavior.mk subs r := by
        simp [SpinGroupTask.behavior, htf]
      rw [hb]
      show subsWeight (TaskBehavior.mk subs r).subtasks <
        optWeight (some (TaskBehavior.mk subs r))
      show subsWeight subs < 1 + behWeight (TaskBehavior.mk subs r)
      rw [behWeight]
      omega
  omega

/-- `executeTasksSequentially` together with `executeTask` and
`prepareTaskForExecution` (spingroup.go lines 252-304), started at loop
index `i`: while `i` is in bounds the loop sets the cursor
(`currentIndex := i`, `subtaskOffset := 0`), wires the task's component to
an indented writer at the task's depth, starts the component, invokes the
task function (performing its `AddSubtask` calls against the group), then
either fails the component and returns the task's error — stopping the
loop — or completes the component with `""` and moves to index `i + 1`
against the (possibly grown) task list.  Result: emitted events, final
group state, returned error. -/
def runFrom (sg : SpinGroup) (i : Nat) : List GEv × SpinGroup × Option String :=
  if h : i < sg.tasks.length then
    let t := sg.tasks[i]
    let sg2 := runSubtaskCalls { sg with currentIndex := i, subtaskOffset := 0 }
      t.behavior.subtasks
    let evs0 := [GEv.setOutput t.comp t.depth, GEv.started t.comp, GEv.invoked t.comp]
    match t.behavior.result with
    | some e => (evs0 ++ [GEv.failedTask t.comp e], sg2, some e)
    | none =>
      let rest := runFrom sg2 (i + 1)
      (evs0 ++ GEv.completedTask t.comp :: rest.1, rest.2)
  else ([], sg, none)
termination_by groupWeight (sg.tasks.drop i)
decreasing_by
  exact runSubtaskCalls_weight_lt sg i h

/-- `SpinGroup.Run` (lines 221-230): validate, `initializeExecution`
(`running := true`; the start time is wall-clock data and unmodelled), the
sequential loop from index 0, then the deferred `finalizeExecution`
(`running := false`, cursor reset) on both the success and the error
path. -/
def SpinGroup.run (sg : SpinGroup) : List GEv × SpinGroup × Option String :=
  match sg.validate with
  | some e => ([], sg, some e)
  | none =>
    let r := runFrom { sg with running := true } 0
    (r.1, { r.2.1 with running := false, currentIndex := 0, subtaskOffset := 0 }, r.2.2)

/-! Unfolding equations for the `Run` loop. -/

theorem runFrom_oob (sg : SpinGroup) (i : Nat) (h : ¬ i < sg.tasks.length) :
    runFrom sg i = ([], sg, none) := by
  rw [runFrom, dif_neg h]

theorem runFrom_failStep (sg : SpinGroup) (i : Nat) (h : i < sg.tasks.length)
    (e : String) (he : sg.tasks[i].behavior.result = some e) :
    runFrom sg i =
      ([GEv.setOutput sg.tasks[i].comp sg.tasks[i].depth,
        GEv.started sg.tasks[i].comp, GEv.invoked sg.tasks[i].comp,
        GEv.failedTask sg.tasks[i].comp e],
       runSubtaskCalls { sg with currentIndex := i, subtaskOffset := 0 }
         sg.tasks[i].behavior.subtasks,
       some e) := by
  rw [runFrom, dif_pos h]
  simp only [he]
  rfl

theorem runFrom_okStep (sg : SpinGroup) (i : Nat) (h : i < sg.tasks.length)
    (he : sg.tasks[i].behavior.result = none) :
    runFrom sg i =
      (GEv.setOutput sg.tasks[i].comp sg.tasks[i].depth ::
        GEv.started sg.tasks[i].comp :: GEv.invoked sg.tasks[i].comp ::
        GEv.completedTask sg.tasks[i].comp ::
        (runFrom (runSubtaskCalls { sg with currentIndex := i, subtaskOffset := 0 }
          sg.tasks[i].behavior.subtasks) (i + 1)).1,
       (runFrom (runSubtaskCalls { sg with currentIndex := i, subtaskOffset := 0 }
          sg.tasks[i].behavior.subtasks) (i + 1)).2) := by
  rw [runFrom, dif_pos h]
  simp only [he]
  rfl

/-! ## Claims about SpinGroup -/

/-- Claim C1: when the `Run` loop reaches a task (at any current position
`i` of the possibly-grown task list) whose task function returns a non-nil
error `e`, the loop returns exactly `e` (so `Run` propagates it verbatim),
the failing task's component receives `Fail(e)` after `SetOutput`/`Start`/
the invocation, and no other component — in particular none of the tasks
after position `i`, nor subtasks that later tasks would have added — is
started or has its function invoked from that point on.  The last conjunct
ties `Run` to this loop: for every group that passes validation, `Run`'s
trace and returned error are exactly those of the loop from position 0. -/
theorem run_fail_fast (sg : SpinGroup) (i : Nat) (h : i < sg.tasks.length)
    (b : TaskBehavior) (e : String)
    (htf : sg.tasks[i].taskFunc = some b) (hres : b.result = some e) :
    (runFrom sg i).2.2 = some e ∧
    (runFrom sg i).1 =
      [GEv.setOutput sg.tasks[i].comp sg.tasks[i].depth,
       GEv.started sg.tasks[i].comp, GEv.invoked sg.tasks[i].comp,
       GEv.failedTask sg.tasks[i].comp e] ∧
    (∀ c, GEv.started c ∈ (runFrom sg i).1 → c = sg.tasks[i].comp) ∧
    (∀ c, GEv.invoked c ∈ (runFrom sg i).1 → c = sg.tasks[i].comp) ∧
    (∀ g : SpinGroup, g.validate = none →
      (g.run).1 = (runFrom { g with running := true } 0).1 ∧
      (g.run).2.2 = (runFrom { g with running := true } 0).2.2) := by
  have hbeh : sg.tasks[i].behavior = b := by
    simp [SpinGroupTask.behavior, htf]
  have he : sg.tasks[i].behavior.result = some e := by
    rw [hbeh]
    exact hres
  rw [runFrom_failStep sg i h e he]
  refine ⟨rfl, rfl, ?_, ?_, ?_⟩
  · intro c hc
    simp only [List.mem_cons, List.not_mem_nil, or_false] at hc
    rcases hc with hc | hc | hc | hc
    · exact absurd hc (by simp)
    · exact GEv.started.inj hc
    · exact absurd hc (by simp)
    · exact absurd hc (by simp)
  · intro c hc
    simp only [List.mem_cons, List.not_mem_nil, or_false] at hc
    rcases hc with hc | hc | hc | hc
    · exact absurd hc (by simp)
    · exact absurd hc (by simp)
    · exact GEv.invoked.inj hc
    · exact absurd hc (by simp)
  · intro g hv
    rw [SpinGroup.run, hv]
    exact ⟨rfl, rfl⟩

/-- Witness for C1: a one-task group whose task fails with "boom"; the loop
returns exactly that error and the trace ends at the failing component. -/
theorem run_fail_fast_witness :
    (runFrom ((SpinGroup.new "T").addTask "A" 1 (TaskBehavior.mk [] (some "boom"))) 0).2.2 =
      some "boom" := by
  exact (run_fail_fast ((SpinGroup.new "T").addTask "A" 1 (TaskBehavior.mk [] (some "boom")))
    0 (by decide) (TaskBehavior.mk [] (some "boom")) "boom" rfl rfl).1

/-- Claim C2: while a task at list index `i` executes (the loop has set
`currentIndex := i` and reset `subtaskOffset := 0`), its sequential
`AddSubtask` calls for a list `subs` land exactly behind it: the resulting
task list is `take (i+1) ++ inserted ++ drop (i+1)` (so execution order is
`[..., task, a, b, c, ...nextOriginalTask]`), the `j`-th call (0-based)
sits at index `i + 1 + j = currentIndex + 1 + subtaskOffset`, each inserted
task's depth is the executing task's depth plus one, and `subtaskOffset`
ends at the number of calls. -/
theorem addSubtask_insertion (sg : SpinGroup) (i : Nat) (h : i < sg.tasks.length)
    (subs : List (String × Nat × TaskBehavior)) :
    (runSubtaskCalls { sg with currentIndex := i, subtaskOffset := 0 } subs).tasks =
      sg.tasks.take (i + 1) ++ subs.map (subtaskEntry (sg.tasks[i].depth + 1)) ++
        sg.tasks.drop (i + 1) ∧
    (∀ j : Fin subs.length,
      (runSubtaskCalls { sg with currentIndex := i, subtaskOffset := 0 } subs).tasks[i + 1 + j.1]? =
        some (subtaskEntry (sg.tasks[i].depth + 1) (subs.get j))) ∧
    (runSubtaskCalls { sg with currentIndex := i, subtaskOffset := 0 } subs).subtaskOffset =
      subs.length := by
  have h1 : ({ sg with currentIndex := i, subtaskOffset := 0 } : SpinGroup).currentIndex <
      ({ sg with currentIndex := i, subtaskOffset := 0 } : SpinGroup).tasks.length := h
  have hoff1 : ({ sg with currentIndex := i, subtaskOffset := 0 } : SpinGroup).currentIndex + 1 +
      ({ sg with currentIndex := i, subtaskOffset := 0 } : SpinGroup).subtaskOffset ≤
      ({ sg with currentIndex := i, subtaskOffset := 0 } : SpinGroup).tasks.length := by
    show i + 1 + 0 ≤ sg.tasks.length
    omega
  obtain ⟨ht, -, ho, -, -⟩ := runSubtaskCalls_spec subs
    { sg with currentIndex := i, subtaskOffset := 0 } h1 hoff1
  simp only at ht ho
  rw [Nat.add_zero] at ht
  rw [depthAt_of_lt sg.tasks i h] at ht
  have hlen_take : (sg.tasks.take (i + 1)).length = i + 1 := by
    rw [List.length_take]
    omega
  refine ⟨ht, ?_, by rw [ho]; omega⟩
  intro j
  rw [ht, List.append_assoc,
    List.getElem?_append_right (by rw [hlen_take]; omega)]
  have harith : i + 1 + j.1 - (sg.tasks.take (i + 1)).length = j.1 := by
    rw [hlen_take]
    omega
  rw [harith, List.getElem?_append_left (by simp [j.2]), List.getElem?_map,
    List.getElem?_eq_getElem j.2]
  rfl

/-- Witness for C2: a two-task group whose first task adds three subtasks;
the first lands at index 1 with depth 1 and the offset ends at 3. -/
theorem addSubtask_insertion_witness :
    (runSubtaskCalls
        { (SpinGroup.new "T").addTask "A" 1 (TaskBehavior.mk [] none) |>.addTask "B" 2
            (TaskBehavior.mk [] none) with
          currentIndex := 0, subtaskOffset := 0 }
        [("a", 10, TaskBehavior.mk [] none), ("b", 11, TaskBehavior.mk [] none),
         ("c", 12, TaskBehavior.mk [] none)]).tasks[1]? =
      some (subtaskEntry 1 ("a", 10, TaskBehavior.mk [] none)) ∧
    (runSubtaskCalls
        { (SpinGroup.new "T").addTask "A" 1 (TaskBehavior.mk [] none) |>.addTask "B" 2
            (TaskBehavior.mk [] none) with
          currentIndex := 0, subtaskOffset := 0 }
        [("a", 10, TaskBehavior.mk [] none), ("b", 11, TaskBehavior.mk [] none),
         ("c", 12, TaskBehavior.mk [] none)]).subtaskOffset = 3 := by
  have h := addSubtask_insertion
    ((SpinGroup.new "T").addTask "A" 1 (TaskBehavior.mk [] none) |>.addTask "B" 2
      (TaskBehavior.mk [] none)) 0 (by decide)
    [("a", 10, TaskBehavior.mk [] none), ("b", 11, TaskBehavior.mk [] none),
     ("c", 12, TaskBehavior.mk [] none)]
  exact ⟨h.2.1 ⟨0, by decide⟩, h.2.2⟩

/-! Validation characterization. -/

theorem validateTask_eq_none_iff (t : SpinGroupTask) :
    SpinGroup.validateTask t = none ↔
      (t.name ≠ "" ∧ t.component ≠ none ∧ t.taskFunc ≠ none ∧ ¬ t.depth < 0) := by
  unfold SpinGroup.validateTask
  constructor
  · intro hn
    by_cases h1 : t.name = ""
    · rw [if_pos h1] at hn
      exact absurd hn (by simp)
    rw [if_neg h1] at hn
    by_cases h2 : t.component.isNone
    · rw [if_pos h2] at hn
      exact absurd hn (by simp)
    rw [if_neg h2] at hn
    by_cases h3 : t.taskFunc.isNone
    · rw [if_pos h3] at hn
      exact absurd hn (by simp)
    rw [if_neg h3] at hn
    by_cases h4 : t.depth < 0
    · rw [if_pos h4] at hn
      exact absurd hn (by simp)
    refine ⟨h1, ?_, ?_, h4⟩
    · intro hcn
      exact h2 (by rw [hcn]; rfl)
    · intro hfn
      exact h3 (by rw [hfn]; rfl)
  · rintro ⟨h1, h2, h3, h4⟩
    rw [if_neg h1, if_neg (by simpa [Option.isNone_iff_eq_none] using h2),
      if_neg (by simpa [Option.isNone_iff_eq_none] using h3), if_neg h4]

theorem validateTasks_eq_none_iff (ts : List SpinGroupTask) :
    SpinGroup.validateTasks ts = none ↔
      ∀ t ∈ ts, SpinGroup.validateTask t = none := by
  induction ts with
  | nil => simp [SpinGroup.validateTasks]
  | cons t rest ih =>
    unfold SpinGroup.validateTasks
    cases hv : SpinGroup.validateTask t with
    | some e =>
      simp only [List.mem_cons]
      constructor
      · intro hfalse
        exact absurd hfalse (by simp)
      · intro hall
        exact absurd (hall t (Or.inl rfl)) (by rw [hv]; simp)
    | none =>
      simp only [List.mem_cons]
      rw [ih]
      constructor
      · intro hall x hx
        rcases hx with hx | hx
        · rw [hx]
          exact hv
        · exact hall x hx
      · intro hall x hx
        exact hall x (Or.inr hx)

theorem validateTasks_mem_messages (ts : List SpinGroupTask) (e : String)
    (h : SpinGroup.validateTasks ts = some e) :
    e = "task name cannot be empty" ∨ e = "task component cannot be nil" ∨
    e = "task function cannot be nil" ∨ e = "task depth cannot be negative" := by
  induction ts with
  | nil => exact absurd h (by simp [SpinGroup.validateTasks])
  | cons t rest ih =>
    unfold SpinGroup.validateTasks at h
    cases hv : SpinGroup.validateTask t with
    | some e2 =>
      rw [hv] at h
      have he : e2 = e := by
        have := h
        simp at this
        exact this
      subst he
      unfold SpinGroup.validateTask at hv
      by_cases h1 : t.name = ""
      · rw [if_pos h1] at hv
        exact Or.inl (Option.some.inj hv).symm
      rw [if_neg h1] at hv
      by_cases h2 : t.component.isNone
      · rw [if_pos h2] at hv
        exact Or.inr (Or.inl (Option.some.inj hv).symm)
      rw [if_neg h2] at hv
      by_cases h3 : t.taskFunc.isNone
      · rw [if_pos h3] at hv
        exact Or.inr (Or.inr (Or.inl (Option.some.inj hv).symm))
      rw [if_neg h3] at hv
      by_cases h4 : t.depth < 0
      · rw [if_pos h4] at hv
        exact Or.inr (Or.inr (Or.inr (Option.some.inj hv).symm))
      rw [if_neg h4] at hv
      exact absurd hv (by simp)
    | none =>
      rw [hv] at h
      exact ih h

/-- Claim C3: for every `SpinGroup` whose configuration is invalid (empty
title, zero tasks, or some task with empty name, nil component, nil task
function, or negative depth), `Run` returns one of the six descriptive
validation errors immediately: the event trace is empty (no component was
started, no task function invoked, nothing written) and the group state is
returned unchanged. -/
theorem run_rejects_invalid (sg : SpinGroup)
    (hbad : sg.title = "" ∨ sg.tasks = [] ∨ ∃ t ∈ sg.tasks,
      t.name = "" ∨ t.component = none ∨ t.taskFunc = none ∨ t.depth < 0) :
    ∃ e, sg.validate = some e ∧ sg.run = ([], sg, some e) ∧
      e ∈ ["spingroup title cannot be empty", "spingroup must have at least one task",
        "task name cannot be empty", "task component cannot be nil",
        "task function cannot be nil", "task depth cannot be negative"] := by
  have hv : ∃ e, sg.validate = some e ∧
      e ∈ ["spingroup title cannot be empty", "spingroup must have at least one task",
        "task name cannot be empty", "task component cannot be nil",
        "task function cannot be nil", "task depth cannot be negative"] := by
    by_cases ht : sg.title = ""
    · exact ⟨_, by rw [SpinGroup.validate, if_pos ht], by simp⟩
    by_cases hn : sg.tasks.length = 0
    · exact ⟨_, by rw [SpinGroup.validate, if_neg ht, if_pos hn], by simp⟩
    have hex : ∃ t ∈ sg.tasks,
        t.name = "" ∨ t.component = none ∨ t.taskFunc = none ∨ t.depth < 0 := by
      rcases hbad with hbad | hbad | hbad
      · exact absurd hbad ht
      · exact absurd (by rw [hbad]; rfl) hn
      · exact hbad
    obtain ⟨t, htm, hbadt⟩ := hex
    have hne : SpinGroup.validateTasks sg.tasks ≠ none := by
      intro hnone
      have hall := (validateTasks_eq_none_iff sg.tasks).mp hnone t htm
      have hok := (validateTask_eq_none_iff t).mp hall
      rcases hbadt with hb | hb | hb | hb
      · exact hok.1 hb
      · exact hok.2.1 hb
      · exact hok.2.2.1 hb
      · exact hok.2.2.2 hb
    obtain ⟨e, he⟩ := Option.ne_none_iff_exists.mp hne
    refine ⟨e, by rw [SpinGroup.validate, if_neg ht, if_neg hn]; exact he.symm, ?_⟩
    rcases validateTasks_mem_messages sg.tasks e he.symm with hm | hm | hm | hm <;>
      simp [hm]
  obtain ⟨e, he, hmem⟩ := hv
  refine ⟨e, he, ?_, hmem⟩
  rw [SpinGroup.run, he]

/-- Witness for C3: the empty-titled, task-less group is rejected with the
title message, an empty trace and an unchanged state. -/
theorem run_rejects_invalid_witness :
    ((SpinGroup.new "").run).1 = [] ∧
    ((SpinGroup.new "").run).2.2 = some "spingroup title cannot be empty" := by
  obtain ⟨e, h1, h2, h3⟩ := run_rejects_invalid (SpinGroup.new "") (Or.inl rfl)
  have he : e = "spingroup title cannot be empty" := by
    have h0 : (SpinGroup.new "").validate = some "spingroup title cannot be empty" := rfl
    rw [h0] at h1
    exact (Option.some.inj h1).symm
  rw [h2, he]
  exact ⟨rfl, rfl⟩

end Gooey
